import Mathlib

/-!
Verification of the register-FSM oracle model (`memory_model.py`,
`register_fsm_model.py`): a shallow embedding of the memory model, the
bytestream parser and the random bytestream generator, together with proofs
and refutations of the specification's claims about them.

Machine bytes are embedded as `Nat` (wire bytes are produced in 0..255; where
Python's `bytearray` would reject a larger value the embedding returns the
corresponding error).  Python exceptions (failed `assert`, out-of-range
`LogicArray` slices, `bytearray`/`LogicArray` construction errors) are
embedded as `Except ModelError`.  Randomness is embedded as an explicit
supply of naturals: `random.choice(l)` takes the next supply element `k` and
yields `l[k % len l]`, `random.randint(0, n-1)` yields `k % n`; every actual
run of the Python code corresponds to some supply.  The generator's
`while`-loops and unbounded interrupt recursion are embedded with a fuel
parameter; `none` marks fuel exhaustion and never occurs on the concrete
runs used below.
-/

namespace RegFsm

/-- Byte values of `CommandBytes` in `register_fsm_model.py`. -/
def NULLB : Nat := 0

/-- Opcode byte of a read request (`CommandBytes.READ`). -/
def READ : Nat := 19

/-- Opcode byte of a write request (`CommandBytes.WRITE`). -/
def WRITE : Nat := 35

/-- Response opcode byte (`CommandBytes.READ_DATA`). -/
def READ_DATA : Nat := 3

/-- Abort / invalid-read marker byte (`CommandBytes.BREAK`). -/
def BREAK : Nat := 85

/-- Frame-start and stuffing marker byte (`CommandBytes.ESCAPE`). -/
def ESCAPE : Nat := 231

/-- The list `self._command_values` built in `RegisterFsmModel.__init__`:
`[READ, WRITE, BREAK, ESCAPE]` in that order. -/
def commandValues : List Nat := [READ, WRITE, BREAK, ESCAPE]

/-- Errors corresponding to the Python exceptions the model can raise. -/
inductive ModelError where
  /-- `assert addr >= 0 and addr < len(self.ram)` failed in `write`/`read`. -/
  | addrOutOfRange
  /-- `assert wr_data >= 0 and wr_data < 2**self.data_w - 1` failed in `write`. -/
  | wrDataOutOfRange
  /-- a byte outside 0..255 was passed to `bytearray(...)`. -/
  | byteOutOfRange
  /-- the slice `[addr_w - 1 : 0]` exceeds the collected address bits. -/
  | addrSliceOutOfRange
  /-- the slice `[(idx+1)*8-1 : idx*8]` exceeds the stored word's `data_w` bits. -/
  | dataSliceOutOfRange
  /-- `LogicArray("")` built from an empty collected data field. -/
  | emptyBitstring
  /-- a preloaded initial value does not fit in `data_w` bits (`LogicArray` init). -/
  | valueDoesNotFit
  /-- `assert data_w > 0` / `assert addr_w > 0` failed in `MemoryModel.__init__`. -/
  | badWidth
  /-- `assert num_cmds > 0` failed in `RegisterFsmModel.__init__`. -/
  | badNumCmds
  /-- `assert byte == CommandBytes.ESCAPE.value` failed in `__parse_bytestream`. -/
  | firstByteNotEscape
deriving DecidableEq, Repr

/-- The state of `MemoryModel`: widths plus the RAM contents (word array of
size `2 ^ addr_w`; entries beyond mapped addresses are the placeholder 0 and
are never observable). -/
structure MemoryModel where
  data_w : Nat
  addr_w : Nat
  ram : Nat → Nat

/-- The mapped-address set `self.valid_addrs = {0, 1, 2, 3, 231}`. -/
def validAddrs : List Nat := [0, 1, 2, 3, 231]

/-- Initial RAM contents from `MemoryModel.__generate_initial_ram`. -/
def initRam : Nat → Nat := fun a =>
  if a = 0 then 0x01234567
  else if a = 1 then 0x89abcde7
  else if a = 2 then 0x0a0b0c0d
  else if a = 3 then 0x10203040
  else if a = 231 then 0xdeadbeef
  else 0

/-- A freshly initialized `MemoryModel` (assuming construction succeeds). -/
def freshModel (dw aw : Nat) : MemoryModel := ⟨dw, aw, initRam⟩

/-- `MemoryModel.__init__`: asserts positive widths, then builds the initial
RAM; building a preloaded `LogicArray` whose value does not fit in `data_w`
bits raises, and only indices below `2 ^ addr_w` are constructed. -/
def MemoryModel.init (dw aw : Nat) : Except ModelError MemoryModel :=
  if dw = 0 ∨ aw = 0 then .error .badWidth
  else if ∀ a ∈ validAddrs, a < 2 ^ aw → initRam a < 2 ^ dw then
    .ok (freshModel dw aw)
  else .error .valueDoesNotFit

/-- `MemoryModel.write`: range-asserts the address against `len(self.ram) =
2 ^ addr_w` and the data against `2 ** data_w - 1` (note the exclusive
bound, exactly as in the source), then stores only if the address is mapped. -/
def MemoryModel.write (m : MemoryModel) (addr wr_data : Int) :
    Except ModelError MemoryModel :=
  if 0 ≤ addr ∧ addr < ((2 ^ m.addr_w : Nat) : Int) then
    if 0 ≤ wr_data ∧ wr_data < ((2 ^ m.data_w : Nat) : Int) - 1 then
      if addr.toNat ∈ validAddrs then
        .ok ⟨m.data_w, m.addr_w,
          fun a => if a = addr.toNat then wr_data.toNat else m.ram a⟩
      else .ok m
    else .error .wrDataOutOfRange
  else .error .addrOutOfRange

/-- `MemoryModel.read`: range-asserts the address, returns the stored word
for a mapped address and `None` otherwise. -/
def MemoryModel.read (m : MemoryModel) (addr : Int) :
    Except ModelError (Option Nat) :=
  if 0 ≤ addr ∧ addr < ((2 ^ m.addr_w : Nat) : Int) then
    if addr.toNat ∈ validAddrs then .ok (some (m.ram addr.toNat))
    else .ok none
  else .error .addrOutOfRange

/-- `math.ceil(w / 8)`, the number of bytes covering `w` bits. -/
def numBytesOf (w : Nat) : Nat := (w + 7) / 8

/-- Big-endian value of a byte list, as computed by
`LogicArray("".join(f"{byte:08b}" ...)).integer`. -/
def beValue (l : List Nat) : Nat := l.foldl (fun acc b => acc * 256 + b) 0

/-- Byte stuffing: every literal ESCAPE byte is doubled on the wire (the rule
used by the generator and by `__update_read_bytestreams`). -/
def stuff : List Nat → List Nat
  | [] => []
  | b :: rest => if b = ESCAPE then b :: b :: stuff rest else b :: stuff rest

/-- Decoding loop underlying `unstuff`: with the escape flag set, the next
byte is an escort completing a literal ESCAPE. -/
def unstuffAux : Bool → List Nat → List Nat
  | false, [] => []
  | true, [] => [ESCAPE]
  | false, b :: rest =>
    if b = ESCAPE then unstuffAux true rest else b :: unstuffAux false rest
  | true, _ :: rest => ESCAPE :: unstuffAux false rest

/-- Inverse of `stuff`: an ESCAPE byte consumes its escort and yields one
literal ESCAPE. -/
def unstuff (l : List Nat) : List Nat := unstuffAux false l

/-- Little-endian byte decomposition: `lsbBytes n v = [v % 256, (v / 256) % 256, ...]`,
the list built by the read loop `read_logicarray[(idx+1)*8-1 : idx*8].integer`
before it is reversed. -/
def lsbBytes : Nat → Nat → List Nat
  | 0, _ => []
  | n + 1, v => v % 256 :: lsbBytes n (v / 256)

/-- Big-endian byte decomposition (`lsbBytes` reversed). -/
def beBytes (n v : Nat) : List Nat := (lsbBytes n v).reverse

/-- The code after the collection loop of `__parse_write_bytestream`:
validate the collected bytes (`bytearray`), slice the address down to
`addr_w` bits, take the data value unsliced, and `write`. -/
def finishWrite (m : MemoryModel) (addrB dataB : List Nat) :
    Except ModelError (Option (List Nat) × MemoryModel) :=
  if ∀ b ∈ addrB, b < 256 then
    if ∀ b ∈ dataB, b < 256 then
      if 8 * addrB.length < m.addr_w then .error .addrSliceOutOfRange
      else if dataB.length = 0 then .error .emptyBitstring
      else
        match m.write ((beValue addrB % 2 ^ m.addr_w : Nat) : Int)
            ((beValue dataB : Nat) : Int) with
        | .error e => .error e
        | .ok m2 => .ok (none, m2)
    else .error .byteOutOfRange
  else .error .byteOutOfRange

/-- The code after the collection loop of `__parse_read_bytestream`:
validate the collected bytes, slice the address down to `addr_w` bits,
`read`, and build the logical response bytes (data bytes most-significant
first, or a single BREAK byte for an unmapped address). -/
def finishRead (m : MemoryModel) (addrB : List Nat) :
    Except ModelError (Option (List Nat) × MemoryModel) :=
  if ∀ b ∈ addrB, b < 256 then
    if 8 * addrB.length < m.addr_w then .error .addrSliceOutOfRange
    else
      match m.read ((beValue addrB % 2 ^ m.addr_w : Nat) : Int) with
      | .error e => .error e
      | .ok (some v) =>
        if m.data_w < 8 * numBytesOf m.data_w then .error .dataSliceOutOfRange
        else
          .ok (some (((List.range (numBytesOf m.data_w)).map
            (fun i => v / 2 ^ (8 * i) % 256)).reverse), m)
      | .ok none => .ok (some [BREAK], m)
  else .error .byteOutOfRange

/-- The byte-collection loops of `__parse_write_bytestream` (`isWr = true`)
and `__parse_read_bytestream` (`isWr = false`), fused into one function:
both collect exactly 4 address bytes with identical escape handling, the
write parser then collects `ceil(data_w/8)` data bytes, and both ignore any
remaining bytes once their fields are complete.  A BREAK escort returns
`None` leaving the store untouched; a WRITE/READ escort restarts the
corresponding parse on the remaining bytes; an ESCAPE escort appends one
literal ESCAPE byte; any other escort leaves `is_escaped` set. -/
def parseAux (m : MemoryModel) :
    Bool → List Nat → List Nat → Bool → List Nat →
    Except ModelError (Option (List Nat) × MemoryModel)
  | isWr, addrB, dataB, _, [] =>
    if isWr then finishWrite m addrB dataB else finishRead m addrB
  | isWr, addrB, dataB, esc, b :: rest =>
    if addrB.length < 4 then
      if esc then
        if b = BREAK then .ok (none, m)
        else if b = WRITE then parseAux m true [] [] false rest
        else if b = READ then parseAux m false [] [] false rest
        else if b = ESCAPE then parseAux m isWr (addrB ++ [b]) dataB false rest
        else parseAux m isWr addrB dataB true rest
      else
        if b = ESCAPE then parseAux m isWr addrB dataB true rest
        else parseAux m isWr (addrB ++ [b]) dataB false rest
    else if isWr then
      if dataB.length < numBytesOf m.data_w then
        if esc then
          if b = BREAK then .ok (none, m)
          else if b = WRITE then parseAux m true [] [] false rest
          else if b = READ then parseAux m false [] [] false rest
          else if b = ESCAPE then parseAux m isWr addrB (dataB ++ [b]) false rest
          else parseAux m isWr addrB dataB true rest
        else
          if b = ESCAPE then parseAux m isWr addrB dataB true rest
          else parseAux m isWr addrB (dataB ++ [b]) false rest
      else parseAux m isWr addrB dataB esc rest
    else parseAux m isWr addrB dataB esc rest

/-- `RegisterFsmModel.__parse_write_bytestream` on the bytes after the
WRITE opcode. -/
def parseWriteBytestream (m : MemoryModel) (bs : List Nat) :
    Except ModelError (Option (List Nat) × MemoryModel) :=
  parseAux m true [] [] false bs

/-- `RegisterFsmModel.__parse_read_bytestream` on the bytes after the
READ opcode. -/
def parseReadBytestream (m : MemoryModel) (bs : List Nat) :
    Except ModelError (Option (List Nat) × MemoryModel) :=
  parseAux m false [] [] false bs

/-- The scan for the first WRITE/READ opcode in `__parse_bytestream`:
every other byte after the leading ESCAPE is skipped. -/
def scanOpcode (m : MemoryModel) : List Nat →
    Except ModelError (Option (List Nat) × MemoryModel)
  | [] => .ok (none, m)
  | b :: rest =>
    if b = WRITE then parseWriteBytestream m rest
    else if b = READ then parseReadBytestream m rest
    else scanOpcode m rest

/-- `RegisterFsmModel.__parse_bytestream`: asserts the first byte is ESCAPE,
then dispatches on the first WRITE/READ opcode found. -/
def parseBytestream (m : MemoryModel) :
    List Nat → Except ModelError (Option (List Nat) × MemoryModel)
  | [] => .ok (none, m)
  | b :: rest => if b = ESCAPE then scanOpcode m rest else .error .firstByteNotEscape

/-- The response-bytestream encoding of `__update_read_bytestreams`: a
falsy (absent or empty) parse response emits nothing; a multi-byte response
becomes ESCAPE, READ_DATA and the stuffed data bytes; a one-byte response
becomes ESCAPE followed by that byte. -/
def encodeResponse : Option (List Nat) → List Nat
  | none => []
  | some [] => []
  | some (x :: xs) =>
    if xs = [] then [ESCAPE, x] else ESCAPE :: READ_DATA :: stuff (x :: xs)

/-- Projection of a parse outcome onto the emitted response (discarding the
store), with `none` marking a raised exception. -/
def respOf : Except ModelError (Option (List Nat) × MemoryModel) →
    Option (Option (List Nat))
  | .ok (r, _) => some r
  | .error _ => none

/-- `__update_read_bytestreams` over a list of command bytestreams: parse
each against the shared store in order and collect the encoded non-empty
responses. -/
def parseAll (m : MemoryModel) : List (List Nat) →
    Except ModelError (List (List Nat) × MemoryModel)
  | [] => .ok ([], m)
  | c :: cs =>
    match parseBytestream m c with
    | .error e => .error e
    | .ok (r, m2) =>
      match parseAll m2 cs with
      | .error e => .error e
      | .ok (rs, m3) =>
        match r with
        | none => .ok (rs, m3)
        | some [] => .ok (rs, m3)
        | some (x :: xs) => .ok (encodeResponse (some (x :: xs)) :: rs, m3)

/-- A non-interrupted WRITE(a, v) request frame in the wire format the
generator and the testbench fixtures produce: ESCAPE, WRITE opcode, four
stuffed big-endian address bytes (two zero padding bytes, a zero byte and
the address byte `a`), then the `ceil(data_w/8)` stuffed big-endian data
bytes of `v`. -/
def writeFrame (dw a v : Nat) : List Nat :=
  ESCAPE :: WRITE :: (stuff [0, 0, 0, a] ++ stuff (beBytes (numBytesOf dw) v))

/-- A non-interrupted READ(a) request frame in the same wire format. -/
def readFrame (a : Nat) : List Nat :=
  ESCAPE :: READ :: stuff [0, 0, 0, a]

/-- `random.choice(l)` under an explicit supply of naturals: consume the next
supply element `k` and pick `l[k % len l]` (first element if the supply is
exhausted, which never happens on the runs considered). -/
def randChoice (l : List Nat) (s : List Nat) : Nat × List Nat :=
  match s with
  | [] => (l.headD 0, [])
  | k :: rest => (l.getD (k % l.length) 0, rest)

/-- `random.randint(0, n - 1)` under the explicit supply. -/
def randNat (n : Nat) (s : List Nat) : Nat × List Nat :=
  match s with
  | [] => (0, [])
  | k :: rest => (k % n, rest)

/-- The LSB choice list of `__generate_random_address_bytes`:
`list(valid_addrs) + [42] + command_values`. -/
def addrLsbChoices : List Nat := validAddrs ++ [42] ++ commandValues

/-- The top-level choice list of `__update_command_bytestreams`:
`command_values + [0]`. -/
def topChoices : List Nat := commandValues ++ [NULLB]

/-- Which generator routine `genRun` is executing: the address loop of
`__generate_random_address_bytes` (with its collected bytes, logical byte
index and escape flag), the escort step of that loop, the data loop of
`__generate_random_data_bytes`, its escort step, or
`__generate_command_bytes` for a command value. -/
inductive GenCall where
  | addr (ab : List Nat) (bi : Nat) (esc : Bool)
  | escort (ab : List Nat) (bi : Nat)
  | data (db : List Nat) (bi : Nat) (esc : Bool)
  | descort (db : List Nat) (bi : Nat)
  | cmd (cv : Nat)

/-- The mutually recursive generator routines of `register_fsm_model.py`,
fused over `GenCall` and run on fuel (each loop iteration and nested call
burns one unit; `none` marks exhaustion).  Results pair the generated bytes
with the `interrupt_cmd` flag (meaningful for `.addr` only) and the
remaining random supply. -/
def genRun (dw aw : Nat) : Nat → GenCall → List Nat →
    Option ((List Nat × Bool) × List Nat)
  | 0, _, _ => none
  | fuel + 1, .addr ab bi esc, s =>
    if bi < numBytesOf aw then
      if esc then genRun dw aw fuel (.escort ab bi) s
      else if bi = 0 then
        match randChoice [NULLB, ESCAPE] s with
        | (c, s1) =>
          if c = ESCAPE then genRun dw aw fuel (.escort (ab ++ [c]) bi) s1
          else genRun dw aw fuel (.addr (ab ++ [c]) (bi + 1) false) s1
      else
        match randChoice addrLsbChoices s with
        | (c, s1) =>
          if c = ESCAPE then genRun dw aw fuel (.addr (ab ++ [c]) bi true) s1
          else genRun dw aw fuel (.addr (ab ++ [c]) (bi + 1) false) s1
    else some ((ab, false), s)
  | fuel + 1, .escort ab bi, s =>
    match randChoice commandValues s with
    | (e, s1) =>
      if e = ESCAPE then genRun dw aw fuel (.addr (ab ++ [e]) (bi + 1) false) s1
      else
        match genRun dw aw fuel (.cmd e) s1 with
        | none => none
        | some ((nb, _), s2) => some (((ab ++ [e]) ++ nb, true), s2)
  | fuel + 1, .data db bi esc, s =>
    if bi < numBytesOf dw then
      if esc then genRun dw aw fuel (.descort db bi) s
      else
        match randNat 256 s with
        | (c, s1) =>
          if c = ESCAPE then genRun dw aw fuel (.data (db ++ [c]) bi true) s1
          else genRun dw aw fuel (.data (db ++ [c]) (bi + 1) false) s1
    else some ((db, false), s)
  | fuel + 1, .descort db bi, s =>
    match randChoice commandValues s with
    | (e, s1) =>
      if e = ESCAPE then genRun dw aw fuel (.data (db ++ [e]) (bi + 1) false) s1
      else
        match genRun dw aw fuel (.cmd e) s1 with
        | none => none
        | some ((nb, _), s2) => some (((db ++ [e]) ++ nb, false), s2)
  | fuel + 1, .cmd cv, s =>
    if cv = READ then
      match genRun dw aw fuel (.addr [NULLB, NULLB] 0 false) s with
      | none => none
      | some ((ab, _), s1) => some ((ab, false), s1)
    else if cv = WRITE then
      match genRun dw aw fuel (.addr [NULLB, NULLB] 0 false) s with
      | none => none
      | some ((ab, intr), s1) =>
        if intr then some ((ab, false), s1)
        else
          match genRun dw aw fuel (.data [] 0 false) s1 with
          | none => none
          | some ((db, _), s2) => some ((ab ++ db, false), s2)
    else some (([], false), s)

/-- The body of the per-bytestream `while` loop of
`__update_command_bytestreams`: pick command types (appending NULL padding)
until a non-NULL one is picked, then splice its command bytes. -/
def genOne (dw aw : Nat) : Nat → List Nat → Option (List Nat × List Nat)
  | 0, _ => none
  | fuel + 1, s =>
    match randChoice topChoices s with
    | (ct, s1) =>
      if ct = NULLB then
        match genOne dw aw fuel s1 with
        | none => none
        | some (bs, s2) => some (ct :: bs, s2)
      else
        match genRun dw aw fuel (.cmd ct) s1 with
        | none => none
        | some ((cb, _), s2) => some (ct :: cb, s2)

/-- `__update_command_bytestreams`: `num` command bytestreams, each starting
with ESCAPE, threading the random supply through. -/
def genCommands (dw aw : Nat) : Nat → List Nat → Nat →
    Option (List (List Nat) × List Nat)
  | 0, s, _ => some ([], s)
  | n + 1, s, fuel =>
    match genOne dw aw fuel s with
    | none => none
    | some (body, s1) =>
      match genCommands dw aw n s1 fuel with
      | none => none
      | some (rest, s2) => some ((ESCAPE :: body) :: rest, s2)

/-- The full `Generate` pipeline (`RegisterFsmModel.__init__` /
`update_bytestreams`): assert the command count, build the store, generate
the command bytestreams and compute their oracle responses.  The result
pairs command bytestreams with response bytestreams; a `ModelError` is an
exception visible to the caller. -/
def generatePipeline (num dw aw : Nat) (s : List Nat) (fuel : Nat) :
    Option (Except ModelError (List (List Nat) × List (List Nat))) :=
  if num = 0 then some (.error .badNumCmds)
  else
    match MemoryModel.init dw aw with
    | .error e => some (.error e)
    | .ok m =>
      match genCommands dw aw num s fuel with
      | none => none
      | some (cmds, _) =>
        match parseAll m cmds with
        | .error e => some (.error e)
        | .ok (rs, _) => some (.ok (cmds, rs))

/-! ### Lemmas about stuffing and byte decompositions -/

theorem stuff_append (l1 l2 : List Nat) : stuff (l1 ++ l2) = stuff l1 ++ stuff l2 := by
  induction l1 with
  | nil => simp [stuff]
  | cons b t ih =>
    by_cases hb : b = ESCAPE <;> simp [stuff, hb, ih]

theorem stuff_of_no_escape {l : List Nat} (h : ∀ b ∈ l, b ≠ ESCAPE) : stuff l = l := by
  induction l with
  | nil => rfl
  | cons b t ih =>
    have hb : b ≠ ESCAPE := h b (by simp)
    simp [stuff, hb]
    exact ih fun x hx => h x (by simp [hx])

theorem stuff_eq_nil {l : List Nat} (h : stuff l = []) : l = [] := by
  cases l with
  | nil => rfl
  | cons b t => by_cases hb : b = ESCAPE <;> simp [stuff, hb] at h

theorem unstuff_stuff (l : List Nat) : unstuff (stuff l) = l := by
  suffices h : ∀ t : List Nat, unstuffAux false (stuff t) = t from h l
  intro t
  induction t with
  | nil => rfl
  | cons b t ih =>
    by_cases hb : b = ESCAPE
    · subst hb
      have hs : stuff (ESCAPE :: t) = ESCAPE :: ESCAPE :: stuff t := by simp [stuff]
      rw [hs, unstuffAux, if_pos rfl, unstuffAux, ih]
    · have hs : stuff (b :: t) = b :: stuff t := by simp [stuff, hb]
      rw [hs, unstuffAux, if_neg hb, ih]

theorem lsbBytes_length (n v : Nat) : (lsbBytes n v).length = n := by
  induction n generalizing v with
  | zero => rfl
  | succ k ih => simp [lsbBytes, ih]

theorem beBytes_length (n v : Nat) : (beBytes n v).length = n := by
  simp [beBytes, lsbBytes_length]

theorem lsbBytes_lt (n v : Nat) : ∀ b ∈ lsbBytes n v, b < 256 := by
  induction n generalizing v with
  | zero => simp [lsbBytes]
  | succ k ih =>
    intro b hb
    simp only [lsbBytes, List.mem_cons] at hb
    rcases hb with h | h
    · subst h; exact Nat.mod_lt _ (by norm_num)
    · exact ih (v / 256) b h

theorem beBytes_lt (n v : Nat) : ∀ b ∈ beBytes n v, b < 256 := by
  intro b hb
  exact lsbBytes_lt n v b (List.mem_reverse.mp hb)

theorem beValue_append_singleton (l : List Nat) (b : Nat) :
    beValue (l ++ [b]) = beValue l * 256 + b := by
  simp [beValue, List.foldl_append]

theorem beValue_beBytes {n v : Nat} (h : v < 2 ^ (8 * n)) :
    beValue (beBytes n v) = v := by
  induction n generalizing v with
  | zero =>
    simp [beBytes, lsbBytes, beValue]
    omega
  | succ k ih =>
    have hdiv : v / 256 < 2 ^ (8 * k) := by
      have h2 : (256 : Nat) = 2 ^ 8 := by norm_num
      have : v < 2 ^ (8 * k) * 256 := by
        rw [h2, ← pow_add]
        have : 8 * k + 8 = 8 * (k + 1) := by ring
        rw [this]
        exact h
      omega
    have := ih hdiv
    simp only [beBytes, lsbBytes, List.reverse_cons] at *
    rw [beValue_append_singleton, this]
    omega

theorem range_map_eq_lsbBytes (n v : Nat) :
    (List.range n).map (fun i => v / 2 ^ (8 * i) % 256) = lsbBytes n v := by
  induction n generalizing v with
  | zero => rfl
  | succ k ih =>
    rw [List.range_succ_eq_map]
    simp only [List.map_cons, List.map_map, lsbBytes]
    have hhead : v / 2 ^ (8 * 0) % 256 = v % 256 := by norm_num
    have htail : List.map ((fun i => v / 2 ^ (8 * i) % 256) ∘ Nat.succ)
        (List.range k) = lsbBytes k (v / 256) := by
      rw [← ih (v / 256)]
      apply List.map_congr_left
      intro i _
      simp only [Function.comp_apply]
      have h2 : (2 : Nat) ^ (8 * (i + 1)) = 256 * 2 ^ (8 * i) := by
        rw [show 8 * (i + 1) = 8 + 8 * i by ring, pow_add]
        norm_num
      rw [Nat.div_div_eq_div_mul, ← h2]
    rw [hhead, htail]

/-! ### Step lemmas for the parser's byte collection -/

theorem parseAux_addr_plain (m : MemoryModel) (isWr : Bool)
    (acc dataB rest : List Nat) (b : Nat)
    (hacc : acc.length < 4) (hb : b ≠ ESCAPE) :
    parseAux m isWr acc dataB false (b :: rest) =
      parseAux m isWr (acc ++ [b]) dataB false rest := by
  simp only [parseAux, if_pos hacc, Bool.false_eq_true, if_false, if_neg hb]

theorem parseAux_addr_stuffed (m : MemoryModel) (isWr : Bool)
    (acc dataB rest : List Nat) (hacc : acc.length < 4) :
    parseAux m isWr acc dataB false (ESCAPE :: ESCAPE :: rest) =
      parseAux m isWr (acc ++ [ESCAPE]) dataB false rest := by
  simp only [parseAux, if_pos hacc, Bool.false_eq_true, if_false, if_pos rfl]
  norm_num [ESCAPE, BREAK, WRITE, READ]

theorem parseAux_consume_addr (m : MemoryModel) (isWr : Bool) (A : List Nat) :
    ∀ (acc dataB rest : List Nat), acc.length + A.length ≤ 4 →
    parseAux m isWr acc dataB false (stuff A ++ rest) =
      parseAux m isWr (acc ++ A) dataB false rest := by
  induction A with
  | nil => intro acc dataB rest _; simp [stuff]
  | cons a A' ih =>
    intro acc dataB rest hlen
    have hacc : acc.length < 4 := by simp at hlen; omega
    have hlen' : (acc ++ [a]).length + A'.length ≤ 4 := by simp at hlen ⊢; omega
    by_cases ha : a = ESCAPE
    · subst ha
      have hs : stuff (ESCAPE :: A') = ESCAPE :: ESCAPE :: stuff A' := by
        simp [stuff]
      rw [hs, List.cons_append, List.cons_append,
        parseAux_addr_stuffed m isWr acc dataB _ hacc, ih _ _ _ hlen']
      simp
    · have hs : stuff (a :: A') = a :: stuff A' := by simp [stuff, ha]
      rw [hs, List.cons_append,
        parseAux_addr_plain m isWr acc dataB _ a hacc ha, ih _ _ _ hlen']
      simp

theorem parseAux_addr_escape (m : MemoryModel) (isWr : Bool)
    (acc dataB rest : List Nat) (hacc : acc.length < 4) :
    parseAux m isWr acc dataB false (ESCAPE :: rest) =
      parseAux m isWr acc dataB true rest := by
  simp [parseAux, if_pos hacc]

theorem parseAux_data_plain (m : MemoryModel)
    (A dacc rest : List Nat) (b : Nat)
    (hA : ¬ A.length < 4) (hd : dacc.length < numBytesOf m.data_w)
    (hb : b ≠ ESCAPE) :
    parseAux m true A dacc false (b :: rest) =
      parseAux m true A (dacc ++ [b]) false rest := by
  simp only [parseAux, if_neg hA, if_pos hd, Bool.false_eq_true, if_false,
    if_neg hb, if_true]

theorem parseAux_data_stuffed (m : MemoryModel)
    (A dacc rest : List Nat)
    (hA : ¬ A.length < 4) (hd : dacc.length < numBytesOf m.data_w) :
    parseAux m true A dacc false (ESCAPE :: ESCAPE :: rest) =
      parseAux m true A (dacc ++ [ESCAPE]) false rest := by
  simp only [parseAux, if_neg hA, if_pos hd, Bool.false_eq_true, if_false,
    if_pos rfl, if_true]
  norm_num [ESCAPE, BREAK, WRITE, READ]

theorem parseAux_data_escape (m : MemoryModel)
    (A dacc rest : List Nat)
    (hA : ¬ A.length < 4) (hd : dacc.length < numBytesOf m.data_w) :
    parseAux m true A dacc false (ESCAPE :: rest) =
      parseAux m true A dacc true rest := by
  simp only [parseAux, if_neg hA, if_pos hd, Bool.false_eq_true, if_false,
    if_pos rfl, if_true]

theorem parseAux_consume_data (m : MemoryModel) (D : List Nat) :
    ∀ (A dacc rest : List Nat), ¬ A.length < 4 →
    dacc.length + D.length ≤ numBytesOf m.data_w →
    parseAux m true A dacc false (stuff D ++ rest) =
      parseAux m true A (dacc ++ D) false rest := by
  induction D with
  | nil => intro A dacc rest _ _; simp [stuff]
  | cons d D' ih =>
    intro A dacc rest hA hlen
    have hd : dacc.length < numBytesOf m.data_w := by simp at hlen; omega
    have hlen' : (dacc ++ [d]).length + D'.length ≤ numBytesOf m.data_w := by
      simp at hlen ⊢; omega
    by_cases hdd : d = ESCAPE
    · subst hdd
      have hs : stuff (ESCAPE :: D') = ESCAPE :: ESCAPE :: stuff D' := by
        simp [stuff]
      rw [hs, List.cons_append, List.cons_append,
        parseAux_data_stuffed m A dacc _ hA hd, ih _ _ _ hA hlen']
      simp
    · have hs : stuff (d :: D') = d :: stuff D' := by simp [stuff, hdd]
      rw [hs, List.cons_append,
        parseAux_data_plain m A dacc _ d hA hd hdd, ih _ _ _ hA hlen']
      simp

theorem parseAux_skip_read (m : MemoryModel) :
    ∀ (rest A dataB : List Nat) (esc : Bool), ¬ A.length < 4 →
    parseAux m false A dataB esc rest = finishRead m A := by
  intro rest
  induction rest with
  | nil => intro A dataB esc _; simp [parseAux]
  | cons b r ih =>
    intro A dataB esc hA
    simp only [parseAux, if_neg hA, Bool.false_eq_true, if_false]
    exact ih A dataB esc hA

theorem parseAux_skip_write (m : MemoryModel) :
    ∀ (rest A D : List Nat) (esc : Bool), ¬ A.length < 4 →
    ¬ D.length < numBytesOf m.data_w →
    parseAux m true A D esc rest = finishWrite m A D := by
  intro rest
  induction rest with
  | nil => intro A D esc _ _; simp [parseAux]
  | cons b r ih =>
    intro A D esc hA hD
    simp only [parseAux, if_neg hA, if_neg hD, if_true]
    exact ih A D esc hA hD

theorem parseAux_escort_other (m : MemoryModel) (isWr : Bool)
    (addrB dataB rest : List Nat) (b : Nat)
    (hb : b ≠ BREAK) (hw : b ≠ WRITE) (hr : b ≠ READ) (he : b ≠ ESCAPE) :
    parseAux m isWr addrB dataB true (b :: rest) =
      parseAux m isWr addrB dataB true rest := by
  by_cases hA : addrB.length < 4
  · simp only [parseAux, if_pos hA, if_true, if_neg hb, if_neg hw, if_neg hr,
      if_neg he]
  · cases isWr with
    | false => simp only [parseAux, if_neg hA, Bool.false_eq_true, if_false]
    | true =>
      by_cases hD : dataB.length < numBytesOf m.data_w
      · simp only [parseAux, if_neg hA, if_pos hD, if_true, if_neg hb,
          if_neg hw, if_neg hr, if_neg he]
      · simp only [parseAux, if_neg hA, if_neg hD, if_true]

theorem parseAux_escort_break (m : MemoryModel) (isWr : Bool)
    (addrB dataB rest : List Nat)
    (h : addrB.length < 4 ∨ (isWr = true ∧ dataB.length < numBytesOf m.data_w)) :
    parseAux m isWr addrB dataB true (BREAK :: rest) = .ok (none, m) := by
  rcases h with hA | ⟨hW, hD⟩
  · simp only [parseAux, if_pos hA, if_true, if_pos rfl]
  · subst hW
    by_cases hA : addrB.length < 4
    · simp only [parseAux, if_pos hA, if_true, if_pos rfl]
    · simp only [parseAux, if_neg hA, if_pos hD, if_true, if_pos rfl]

theorem parseAux_escort_read (m : MemoryModel) (isWr : Bool)
    (addrB dataB rest : List Nat)
    (h : addrB.length < 4 ∨ (isWr = true ∧ dataB.length < numBytesOf m.data_w)) :
    parseAux m isWr addrB dataB true (READ :: rest) =
      parseAux m false [] [] false rest := by
  rcases h with hA | ⟨hW, hD⟩
  · simp only [parseAux, if_pos hA, if_true]
    norm_num [READ, BREAK, WRITE]
  · subst hW
    by_cases hA : addrB.length < 4
    · simp only [parseAux, if_pos hA, if_true]
      norm_num [READ, BREAK, WRITE]
    · simp only [parseAux, if_neg hA, if_pos hD, if_true]
      norm_num [READ, BREAK, WRITE]

theorem stuff_snoc_ne (L : List Nat) {b : Nat} (hb : b ≠ ESCAPE) :
    stuff (L ++ [b]) = stuff L ++ [b] := by
  rw [stuff_append]
  simp [stuff, hb]

theorem stuff_snoc_escape (L : List Nat) :
    stuff (L ++ [ESCAPE]) = stuff L ++ [ESCAPE, ESCAPE] := by
  rw [stuff_append]
  simp [stuff]

/-- Invariant of the generator's address loop: a run of
`__generate_random_address_bytes` that returns without triggering an
interrupt produces the stuffed form of exactly `2 + ceil(addr_w/8)` logical
bytes (the `[0, 0]` seed plus one logical byte per loop index). -/
theorem genRun_addr_shape (dw aw : Nat) : ∀ fuel : Nat,
    (∀ (s ab : List Nat) (bi : Nat) (esc : Bool) (bytes s2 : List Nat),
      genRun dw aw fuel (.addr ab bi esc) s = some ((bytes, false), s2) →
      (if esc then
        ∃ L, ab = stuff L ++ [ESCAPE] ∧ L.length = 2 + bi ∧ bi < numBytesOf aw
      else
        ∃ L, ab = stuff L ∧ L.length = 2 + bi ∧ bi ≤ numBytesOf aw) →
      ∃ L, bytes = stuff L ∧ L.length = 2 + numBytesOf aw) ∧
    (∀ (s ab : List Nat) (bi : Nat) (bytes s2 : List Nat),
      genRun dw aw fuel (.escort ab bi) s = some ((bytes, false), s2) →
      (∃ L, ab = stuff L ++ [ESCAPE] ∧ L.length = 2 + bi ∧ bi < numBytesOf aw) →
      ∃ L, bytes = stuff L ∧ L.length = 2 + numBytesOf aw) := by
  intro fuel
  induction fuel with
  | zero =>
    constructor
    · intro s ab bi esc bytes s2 h _
      simp [genRun] at h
    · intro s ab bi bytes s2 h _
      simp [genRun] at h
  | succ n ih =>
    have escortCase : ∀ (s ab : List Nat) (bi : Nat) (bytes s2 : List Nat),
        genRun dw aw (n + 1) (.escort ab bi) s = some ((bytes, false), s2) →
        (∃ L, ab = stuff L ++ [ESCAPE] ∧ L.length = 2 + bi ∧
          bi < numBytesOf aw) →
        ∃ L, bytes = stuff L ∧ L.length = 2 + numBytesOf aw := by
      intro s ab bi bytes s2 h hinv
      obtain ⟨L, hab, hL, hbi⟩ := hinv
      simp only [genRun] at h
      rcases hc : randChoice commandValues s with ⟨e, s1⟩
      rw [hc] at h
      dsimp only at h
      by_cases he : e = ESCAPE
      · rw [if_pos he] at h
        subst he
        refine ih.1 s1 _ (bi + 1) false bytes s2 h ?_
        simp only [if_neg (Bool.false_ne_true)]
        refine ⟨L ++ [ESCAPE], ?_, ?_, ?_⟩
        · rw [hab, stuff_snoc_escape]
          simp
        · simp [hL]; omega
        · omega
      · rw [if_neg he] at h
        rcases hg : genRun dw aw n (.cmd e) s1 with _ | ⟨⟨nb, flag⟩, s3⟩ <;>
          rw [hg] at h <;> simp at h
    constructor
    · intro s ab bi esc bytes s2 h hinv
      by_cases hbi : bi < numBytesOf aw
      · cases esc with
        | true =>
          simp only [genRun, if_pos hbi, eq_self_iff_true, if_true] at h
          exact ih.2 s ab bi bytes s2 h (by simpa using hinv)
        | false =>
          simp only [if_neg (Bool.false_ne_true)] at hinv
          obtain ⟨L, hab, hL, _⟩ := hinv
          by_cases hbi0 : bi = 0
          · simp only [genRun, if_pos hbi, Bool.false_eq_true, if_false,
              if_pos hbi0] at h
            rcases hc : randChoice [NULLB, ESCAPE] s with ⟨c, s1⟩
            rw [hc] at h
            dsimp only at h
            by_cases hce : c = ESCAPE
            · rw [if_pos hce] at h
              refine ih.2 s1 _ bi bytes s2 h ?_
              exact ⟨L, by rw [hab, hce], hL, hbi⟩
            · rw [if_neg hce] at h
              refine ih.1 s1 _ (bi + 1) false bytes s2 h ?_
              simp only [if_neg (Bool.false_ne_true)]
              refine ⟨L ++ [c], ?_, ?_, ?_⟩
              · rw [hab, stuff_snoc_ne L hce]
              · simp [hL]; omega
              · omega
          · simp only [genRun, if_pos hbi, Bool.false_eq_true, if_false,
              if_neg hbi0] at h
            rcases hc : randChoice addrLsbChoices s with ⟨c, s1⟩
            rw [hc] at h
            dsimp only at h
            by_cases hce : c = ESCAPE
            · rw [if_pos hce] at h
              refine ih.1 s1 _ bi true bytes s2 h ?_
              simp only [if_true]
              exact ⟨L, by rw [hab, hce], hL, hbi⟩
            · rw [if_neg hce] at h
              refine ih.1 s1 _ (bi + 1) false bytes s2 h ?_
              simp only [if_neg (Bool.false_ne_true)]
              refine ⟨L ++ [c], ?_, ?_, ?_⟩
              · rw [hab, stuff_snoc_ne L hce]
              · simp [hL]; omega
              · omega
      · simp only [genRun, if_neg hbi] at h
        cases esc with
        | true =>
          simp only [if_true] at hinv
          obtain ⟨_, _, _, hlt⟩ := hinv
          exact absurd hlt hbi
        | false =>
          simp only [if_neg (Bool.false_ne_true)] at hinv
          obtain ⟨L, hab, hL, hle⟩ := hinv
          simp only [Option.some.injEq, Prod.mk.injEq] at h
          obtain ⟨⟨h1, -⟩, -⟩ := h
          subst h1
          exact ⟨L, hab, by omega⟩
    · exact escortCase

theorem parseAux_escort_write (m : MemoryModel) (isWr : Bool)
    (addrB dataB rest : List Nat)
    (h : addrB.length < 4 ∨ (isWr = true ∧ dataB.length < numBytesOf m.data_w)) :
    parseAux m isWr addrB dataB true (WRITE :: rest) =
      parseAux m true [] [] false rest := by
  rcases h with hA | ⟨hW, hD⟩
  · simp only [parseAux, if_pos hA, if_true]
    norm_num [BREAK, WRITE]
  · subst hW
    by_cases hA : addrB.length < 4
    · simp only [parseAux, if_pos hA, if_true]
      norm_num [BREAK, WRITE]
    · simp only [parseAux, if_neg hA, if_pos hD, if_true]
      norm_num [BREAK, WRITE]

/-! ### Frame-level parsing lemmas -/

theorem parseBytestream_write (m : MemoryModel) (rest : List Nat) :
    parseBytestream m (ESCAPE :: WRITE :: rest) = parseWriteBytestream m rest := by
  simp [parseBytestream, scanOpcode]

theorem parseBytestream_read (m : MemoryModel) (rest : List Nat) :
    parseBytestream m (ESCAPE :: READ :: rest) = parseReadBytestream m rest := by
  simp [parseBytestream, scanOpcode, READ, WRITE]

theorem parseRead_complete (m : MemoryModel) (A rest : List Nat)
    (hA : A.length = 4) :
    parseReadBytestream m (stuff A ++ rest) = finishRead m A := by
  unfold parseReadBytestream
  rw [show parseAux m false [] [] false (stuff A ++ rest) =
      parseAux m false ([] ++ A) [] false rest from
    parseAux_consume_addr m false A [] [] rest (by simp [hA])]
  simp only [List.nil_append]
  exact parseAux_skip_read m rest A [] false (by omega)

theorem parseWrite_complete (m : MemoryModel) (A D rest : List Nat)
    (hA : A.length = 4) (hD : D.length = numBytesOf m.data_w) :
    parseWriteBytestream m (stuff A ++ (stuff D ++ rest)) = finishWrite m A D := by
  unfold parseWriteBytestream
  rw [show parseAux m true [] [] false (stuff A ++ (stuff D ++ rest)) =
      parseAux m true ([] ++ A) [] false (stuff D ++ rest) from
    parseAux_consume_addr m true A [] [] (stuff D ++ rest) (by simp [hA])]
  simp only [List.nil_append]
  rw [show parseAux m true A [] false (stuff D ++ rest) =
      parseAux m true A ([] ++ D) false rest from
    parseAux_consume_data m D A [] rest (by omega) (by simp [hD])]
  simp only [List.nil_append]
  exact parseAux_skip_write m rest A D false (by omega) (by omega)

theorem parseWrite_addr_complete (m : MemoryModel) (A rest : List Nat)
    (hA : A.length = 4) :
    parseWriteBytestream m (stuff A ++ rest) = parseAux m true A [] false rest := by
  unfold parseWriteBytestream
  rw [show parseAux m true [] [] false (stuff A ++ rest) =
      parseAux m true ([] ++ A) [] false rest from
    parseAux_consume_addr m true A [] [] rest (by simp [hA])]
  simp only [List.nil_append]

/-! ### Store lemmas -/

theorem validAddrs_lt : ∀ a ∈ validAddrs, a < 256 := by decide

theorem read_of_lt (m : MemoryModel) (a : Nat) (ha : a < 2 ^ m.addr_w) :
    m.read (a : Int) = .ok (if a ∈ validAddrs then some (m.ram a) else none) := by
  unfold MemoryModel.read
  rw [if_pos ⟨Int.ofNat_nonneg a, by exact_mod_cast ha⟩]
  simp only [Int.toNat_ofNat]
  by_cases hm : a ∈ validAddrs
  · rw [if_pos hm, if_pos hm]
  · rw [if_neg hm, if_neg hm]

theorem write_ne_addr_error (m : MemoryModel) (a : Nat) (d : Int)
    (ha : a < 2 ^ m.addr_w) :
    m.write (a : Int) d ≠ .error .addrOutOfRange := by
  unfold MemoryModel.write
  rw [if_pos ⟨Int.ofNat_nonneg a, by exact_mod_cast ha⟩]
  by_cases hd : 0 ≤ d ∧ d < ((2 ^ m.data_w : Nat) : Int) - 1
  · rw [if_pos hd]
    by_cases hm : (a : Int).toNat ∈ validAddrs
    · rw [if_pos hm]; intro h; cases h
    · rw [if_neg hm]; intro h; cases h
  · rw [if_neg hd]; intro h; injection h with h1; cases h1

theorem write_mapped (m : MemoryModel) (a v : Nat)
    (ha : a < 2 ^ m.addr_w) (hv : v < 2 ^ m.data_w - 1) (hm : a ∈ validAddrs) :
    m.write (a : Int) (v : Int) =
      .ok ⟨m.data_w, m.addr_w, fun x => if x = a then v else m.ram x⟩ := by
  have h1 : 1 ≤ 2 ^ m.data_w := Nat.one_le_two_pow
  unfold MemoryModel.write
  rw [if_pos ⟨Int.ofNat_nonneg a, by exact_mod_cast ha⟩]
  rw [if_pos ⟨Int.ofNat_nonneg v,
    by rw [← Nat.cast_one, ← Nat.cast_sub h1]; exact_mod_cast hv⟩]
  simp only [Int.toNat_ofNat]
  rw [if_pos hm]

/-- Completing a four-byte address field and a full data field for a mapped
address with an in-range value stores the value. -/
theorem finishWrite_mapped (m : MemoryModel) (a v : Nat)
    (ha256 : a < 256) (h8 : 8 ≤ m.addr_w) (h32 : m.addr_w ≤ 32)
    (hn : 1 ≤ numBytesOf m.data_w) (hvlt : v < 2 ^ (8 * numBytesOf m.data_w))
    (hv : v < 2 ^ m.data_w - 1) (hm : a ∈ validAddrs) :
    finishWrite m [0, 0, 0, a] (beBytes (numBytesOf m.data_w) v) =
      .ok (none, ⟨m.data_w, m.addr_w, fun x => if x = a then v else m.ram x⟩) := by
  have ha2 : a < 2 ^ m.addr_w :=
    lt_of_lt_of_le ha256 (by calc (256 : Nat) = 2 ^ 8 := by norm_num
                               _ ≤ 2 ^ m.addr_w := Nat.pow_le_pow_right (by norm_num) h8)
  have hbeA : beValue [0, 0, 0, a] = a := by simp [beValue]
  unfold finishWrite
  rw [if_pos (by intro b hb; simp at hb; rcases hb with h | h | h | h <;> omega)]
  rw [if_pos (beBytes_lt _ v)]
  rw [if_neg (by simp; omega)]
  rw [if_neg (by simp [beBytes_length]; omega)]
  rw [hbeA, Nat.mod_eq_of_lt ha2, beValue_beBytes hvlt]
  rw [write_mapped m a v ha2 hv hm]

/-- Completing a four-byte address field for a mapped address reads back the
stored word as big-endian bytes. -/
theorem finishRead_mapped (m : MemoryModel) (a : Nat)
    (ha256 : a < 256) (h8 : 8 ≤ m.addr_w) (h32 : m.addr_w ≤ 32)
    (hdw : m.data_w = 8 * numBytesOf m.data_w) (hm : a ∈ validAddrs) :
    finishRead m [0, 0, 0, a] =
      .ok (some (beBytes (numBytesOf m.data_w) (m.ram a)), m) := by
  have ha2 : a < 2 ^ m.addr_w :=
    lt_of_lt_of_le ha256 (by calc (256 : Nat) = 2 ^ 8 := by norm_num
                               _ ≤ 2 ^ m.addr_w := Nat.pow_le_pow_right (by norm_num) h8)
  have hbeA : beValue [0, 0, 0, a] = a := by simp [beValue]
  unfold finishRead
  rw [if_pos (by intro b hb; simp at hb; rcases hb with h | h | h | h <;> omega)]
  rw [if_neg (by simp; omega)]
  rw [hbeA, Nat.mod_eq_of_lt ha2, read_of_lt m a ha2, if_pos hm]
  simp only [if_neg (by omega : ¬ m.data_w < 8 * numBytesOf m.data_w)]
  rw [range_map_eq_lsbBytes]
  rfl

theorem encodeResponse_long {r : List Nat} (h : 1 < r.length) :
    encodeResponse (some r) = ESCAPE :: READ_DATA :: stuff r := by
  cases r with
  | nil => simp at h
  | cons x xs =>
    cases xs with
    | nil => simp at h
    | cons y ys => simp [encodeResponse]

theorem parseRead_complete_nil (m : MemoryModel) (A : List Nat)
    (hA : A.length = 4) :
    parseReadBytestream m (stuff A) = finishRead m A := by
  have h := parseRead_complete m A [] hA
  simpa using h

theorem parseWrite_complete_nil (m : MemoryModel) (A D : List Nat)
    (hA : A.length = 4) (hD : D.length = numBytesOf m.data_w) :
    parseWriteBytestream m (stuff A ++ stuff D) = finishWrite m A D := by
  have h := parseWrite_complete m A D [] hA hD
  simpa using h

/-! ### Claims -/

/-- Claim C1 (counterexample).  The claim states that parsing a
non-interrupted WRITE(a, v) frame immediately followed by a non-interrupted
READ(a) frame on a fresh store yields a read response decoding to `v`.  On
the code it fails twice: (1) with a = 3, v = 5 the parser ignores every byte
after the WRITE frame's fields are complete, so the trailing READ frame is
dropped and no response at all is produced; (2) parsed as two separate
bytestreams, the boundary value v = 2^32 - 1 (a 32-bit value) makes
`MemoryModel.write` raise, because its range check is `wr_data < 2**data_w - 1`. -/
theorem c1_roundtrip_counterexample :
    respOf (parseBytestream (freshModel 32 16) (writeFrame 32 3 5 ++ readFrame 3)) =
      some none ∧
    parseBytestream (freshModel 32 16) (writeFrame 32 3 (2 ^ 32 - 1)) =
      .error .wrDataOutOfRange := ⟨rfl, rfl⟩

/-- Claim C1 (amended).  Round trip as the code implements it: the WRITE(a, v)
and READ(a) frames must be parsed as two separate bytestreams (the store
carried over), and v must satisfy `v < 2^data_w - 1` (the write range check
excludes the all-ones value); then the read response's decoded (unstuffed)
data field equals v, for every mapped address and every such v, with
`8 ∣ data_w`, `data_w ≥ 32`, `8 ≤ addr_w ≤ 32`. -/
theorem c1_roundtrip_amended (dw aw a v : Nat)
    (hdw : dw = 8 * numBytesOf dw) (h32 : 32 ≤ dw)
    (ha8 : 8 ≤ aw) (ha32 : aw ≤ 32)
    (hmem : a ∈ validAddrs) (hv : v < 2 ^ dw - 1) :
    parseBytestream (freshModel dw aw) (writeFrame dw a v) =
      .ok (none, ⟨dw, aw, fun x => if x = a then v else initRam x⟩) ∧
    parseBytestream (⟨dw, aw, fun x => if x = a then v else initRam x⟩ : MemoryModel)
      (readFrame a) =
      .ok (some (beBytes (numBytesOf dw) v),
        (⟨dw, aw, fun x => if x = a then v else initRam x⟩ : MemoryModel)) ∧
    beValue (unstuff (List.drop 2
      (encodeResponse (some (beBytes (numBytesOf dw) v))))) = v := by
  have hn4 : 4 ≤ numBytesOf dw := by unfold numBytesOf; omega
  have h1 : 1 ≤ 2 ^ dw := Nat.one_le_two_pow
  have ha256 : a < 256 := validAddrs_lt a hmem
  have hvlt : v < 2 ^ (8 * numBytesOf dw) := by rw [← hdw]; omega
  refine ⟨?_, ?_, ?_⟩
  · show parseBytestream (freshModel dw aw)
      (ESCAPE :: WRITE :: (stuff [0, 0, 0, a] ++
        stuff (beBytes (numBytesOf (freshModel dw aw).data_w) v))) = _
    rw [parseBytestream_write,
      parseWrite_complete_nil (freshModel dw aw) [0, 0, 0, a] _ (by simp)
        (by rw [beBytes_length]),
      finishWrite_mapped (freshModel dw aw) a v ha256 ha8 ha32
        (show 1 ≤ numBytesOf dw by omega) hvlt hv hmem]
    rfl
  · show parseBytestream _ (ESCAPE :: READ :: stuff [0, 0, 0, a]) = _
    rw [parseBytestream_read,
      parseRead_complete_nil _ [0, 0, 0, a] (by simp),
      finishRead_mapped _ a ha256 ha8 ha32 hdw hmem]
    simp
  · rw [encodeResponse_long (by rw [beBytes_length]; omega)]
    have hdrop : List.drop 2
        (ESCAPE :: READ_DATA :: stuff (beBytes (numBytesOf dw) v)) =
        stuff (beBytes (numBytesOf dw) v) := rfl
    rw [hdrop, unstuff_stuff, beValue_beBytes hvlt]

/-- Claim C1 (witness). -/
theorem c1_roundtrip_witness :
    parseBytestream (freshModel 32 16) (writeFrame 32 3 5) =
      .ok (none, ⟨32, 16, fun x => if x = 3 then 5 else initRam x⟩) ∧
    parseBytestream (⟨32, 16, fun x => if x = 3 then 5 else initRam x⟩ : MemoryModel)
      (readFrame 3) =
      .ok (some (beBytes (numBytesOf 32) 5),
        (⟨32, 16, fun x => if x = 3 then 5 else initRam x⟩ : MemoryModel)) ∧
    beValue (unstuff (List.drop 2
      (encodeResponse (some (beBytes (numBytesOf 32) 5))))) = 5 :=
  c1_roundtrip_amended 32 16 3 5 (by decide) (by norm_num) (by norm_num)
    (by norm_num) (by decide) (by decide)

/-- Claim C2 (counterexample).  A completed, non-interrupted READ(3) frame
immediately followed by a READ(1) frame: the parser emits only the first
frame's response (the word at address 3) and drops the second frame
entirely, so the output is not the concatenation of the two frames'
responses. -/
theorem c2_chaining_counterexample :
    parseBytestream (freshModel 32 16)
      [231, 19, 0, 0, 0, 3, 231, 19, 0, 0, 0, 1] =
      .ok (some [16, 32, 48, 64], freshModel 32 16) ∧
    parseBytestream (freshModel 32 16) [231, 19, 0, 0, 0, 1] =
      .ok (some [137, 171, 205, 231], freshModel 32 16) ∧
    encodeResponse (some [16, 32, 48, 64]) ≠
      encodeResponse (some [16, 32, 48, 64]) ++
        encodeResponse (some [137, 171, 205, 231]) :=
  ⟨rfl, rfl, by decide⟩

/-- Claim C2 (amended).  The parser emits at most one response per command
bytestream: once a frame's fields are complete (READ: four address bytes;
WRITE: four address bytes plus `ceil(data_w/8)` data bytes), every following
byte — including a chained ESCAPE-prefixed frame — is ignored, so the result
equals that of the bytestream truncated at the first completed frame. -/
theorem c2_first_frame_only (m : MemoryModel) (A suffix : List Nat)
    (hA : A.length = 4) :
    parseBytestream m (ESCAPE :: READ :: (stuff A ++ suffix)) =
      parseBytestream m (ESCAPE :: READ :: stuff A) ∧
    ∀ D : List Nat, D.length = numBytesOf m.data_w →
      parseBytestream m (ESCAPE :: WRITE :: (stuff A ++ (stuff D ++ suffix))) =
        parseBytestream m (ESCAPE :: WRITE :: (stuff A ++ stuff D)) := by
  constructor
  · rw [parseBytestream_read, parseBytestream_read,
      parseRead_complete m A suffix hA, parseRead_complete_nil m A hA]
  · intro D hD
    rw [parseBytestream_write, parseBytestream_write,
      parseWrite_complete m A D suffix hA hD, parseWrite_complete_nil m A D hA hD]

/-- Claim C2 (witness). -/
theorem c2_first_frame_only_witness :
    parseBytestream (freshModel 32 16)
      (ESCAPE :: READ :: (stuff [0, 0, 0, 3] ++ [231, 19, 0, 0, 0, 1])) =
      parseBytestream (freshModel 32 16) (ESCAPE :: READ :: stuff [0, 0, 0, 3]) :=
  (c2_first_frame_only (freshModel 32 16) [0, 0, 0, 3] [231, 19, 0, 0, 0, 1]
    (by decide)).1

/-- Claim C3 (counterexample).  The claim states an escort byte that is NULL
(or any value other than ESCAPE, BREAK, READ, WRITE) aborts the frame like
BREAK, producing no response.  In the code the frame is not aborted: after
ESCAPE, NULL(0), the parser stays escaped, the following ESCAPE escort is
taken as a literal address byte, and the frame completes and produces a
response (the word at address 1). -/
theorem c3_null_escort_counterexample :
    respOf (parseBytestream (freshModel 32 16) [231, 19, 231, 0, 231, 0, 0, 1]) =
      some (some [137, 171, 205, 231]) ∧
    (some [137, 171, 205, 231] : Option (List Nat)) ≠ none :=
  ⟨rfl, by decide⟩

/-- Claim C3 (amended).  An escort byte that is none of BREAK, WRITE, READ,
ESCAPE (NULL included) is simply skipped with the parser remaining in the
escaped state — the frame is not aborted and no progress is discarded; the
next byte is interpreted as an escort in turn. -/
theorem c3_unrecognized_escort (m : MemoryModel) (isWr : Bool)
    (addrB dataB rest : List Nat) (e : Nat)
    (hb : e ≠ BREAK) (hw : e ≠ WRITE) (hr : e ≠ READ) (he : e ≠ ESCAPE) :
    parseAux m isWr addrB dataB true (e :: rest) =
      parseAux m isWr addrB dataB true rest :=
  parseAux_escort_other m isWr addrB dataB rest e hb hw hr he

/-- Claim C3 (witness). -/
theorem c3_unrecognized_escort_witness :
    parseAux (freshModel 32 16) false [] [] true (0 :: [231, 0, 0, 1]) =
      parseAux (freshModel 32 16) false [] [] true [231, 0, 0, 1] :=
  c3_unrecognized_escort (freshModel 32 16) false [] [] [231, 0, 0, 1] 0
    (by decide) (by decide) (by decide) (by decide)

/-- Claim C4 (counterexample).  The claim states the parser acts on a READ
after exactly `ceil(addr_w/8)` logical address bytes.  With `addr_w = 16`
that would be two bytes, so the command `[E7, 13, 00, 03, 00, 00]` would read
address 3 (data `0x10203040`).  The code collects four logical address bytes
and reads address `0x00030000 mod 2^16 = 0` instead (data `0x01234567`). -/
theorem c4_address_bytes_counterexample :
    parseBytestream (freshModel 32 16) [231, 19, 0, 3, 0, 0] =
      .ok (some [1, 35, 69, 103], freshModel 32 16) ∧
    [1, 35, 69, 103] ≠ [16, 32, 48, 64] :=
  ⟨rfl, by decide⟩

/-- Claim C4 (amended).  The address field is four logical bytes on the
parser side: the parser acts exactly after four logical (unstuffed) address
bytes, for every address width.  The generator emits `2 + ceil(addr_w/8)`
logical address bytes in a non-interrupted frame (a hard-coded `[0, 0]`
prefix plus one generated logical byte per loop index); the two sides agree
exactly when `ceil(addr_w/8) = 2`. -/
theorem c4_address_field_amended :
    (∀ (m : MemoryModel) (A rest : List Nat), A.length = 4 →
      parseReadBytestream m (stuff A ++ rest) = finishRead m A ∧
      parseWriteBytestream m (stuff A ++ rest) = parseAux m true A [] false rest) ∧
    (∀ (dw aw fuel : Nat) (s s2 bytes : List Nat),
      genRun dw aw fuel (.addr [NULLB, NULLB] 0 false) s =
        some ((bytes, false), s2) →
      ∃ L, bytes = stuff L ∧ L.length = 2 + numBytesOf aw) := by
  constructor
  · intro m A rest hA
    exact ⟨parseRead_complete m A rest hA, parseWrite_addr_complete m A rest hA⟩
  · intro dw aw fuel s s2 bytes h
    refine (genRun_addr_shape dw aw fuel).1 s _ 0 false bytes s2 h ?_
    simp only [Bool.false_eq_true, if_false]
    exact ⟨[NULLB, NULLB], by decide, by decide, Nat.zero_le _⟩

/-- Claim C4 (witness). -/
theorem c4_address_field_witness :
    parseReadBytestream (freshModel 32 16) (stuff [0, 0, 0, 3] ++ [7, 7]) =
      finishRead (freshModel 32 16) [0, 0, 0, 3] :=
  (c4_address_field_amended.1 (freshModel 32 16) [0, 0, 0, 3] [7, 7] (by decide)).1

/-- Claim C5 (code bug).  The claim — write/read raise exactly when the
address is out of the raw addressable range, so a write of any
data_width-bit value to an in-range address never raises — matches the
write assertion's own error message ("Write data out of range (0 to
2**data_w - 1)"), but the code's check is `wr_data < 2**data_w - 1`, which
rejects the in-range all-ones value: writing 2^32 - 1 (data_w = 32) to the
in-range address 0 raises.  Reading any in-range address never raises. -/
theorem c5_write_range_bug :
    (freshModel 32 16).write 0 (2 ^ 32 - 1) = .error .wrDataOutOfRange ∧
    ((0 : Int) ≤ 0 ∧ (0 : Int) < ((2 ^ 16 : Nat) : Int)) ∧
    ((0 : Int) ≤ 2 ^ 32 - 1 ∧ (2 ^ 32 - 1 : Int) < ((2 ^ 32 : Nat) : Int)) ∧
    (freshModel 32 16).read 0 = .ok (some 0x01234567) :=
  ⟨rfl, by decide, by decide, rfl⟩

/-- Claim C6 (code bug).  The claim says the Generate pipeline raises no
exception visible to the caller.  With num_cmds = 1, data_w = 32,
addr_w = 16, the random choices [1, 0, 1, 255, 255, 255, 255] make the
generator produce the well-formed command
`[E7, 23, 00, 00, 00, 01, FF, FF, FF, FF]` (WRITE of 0xFFFFFFFF to mapped
address 1), and parsing it raises the write range assertion — an exception
escaping `RegisterFsmModel.__init__`. -/
theorem c6_generate_exception :
    generatePipeline 1 32 16 [1, 0, 1, 255, 255, 255, 255] 64 =
      some (.error .wrDataOutOfRange) := rfl

/-- Claim C7 (counterexample).  The claim covers frames hitting a BREAK *or
unrecognized* escort, asserting they produce zero response bytes.  A frame
hitting the unrecognized escort 7 is not aborted: it completes and produces
a non-empty response (the word at address 2). -/
theorem c7_abort_counterexample :
    respOf (parseBytestream (freshModel 32 16) [231, 19, 231, 7, 231, 0, 0, 2]) =
      some (some [10, 11, 12, 13]) ∧
    [10, 11, 12, 13] ≠ ([] : List Nat) :=
  ⟨rfl, by decide⟩

/-- Claim C7 (amended).  Restricted to BREAK escorts the claim holds: a BREAK
escort in the address field (of a READ or WRITE) or in the data field (of a
WRITE) returns immediately with no response — the encoded response
bytestream is empty — and the store passed back is exactly the input store,
so the aborted frame never reaches the store. -/
theorem c7_break_abort (m : MemoryModel) (isWr : Bool)
    (addrB dataB rest : List Nat)
    (h : addrB.length < 4 ∨ (isWr = true ∧ dataB.length < numBytesOf m.data_w)) :
    parseAux m isWr addrB dataB true (BREAK :: rest) = .ok (none, m) ∧
    encodeResponse none = [] :=
  ⟨parseAux_escort_break m isWr addrB dataB rest h, rfl⟩

/-- Claim C7 (witness). -/
theorem c7_break_abort_witness :
    parseAux (freshModel 32 16) false [0, 0] [] true (BREAK :: [9, 9]) =
      .ok (none, freshModel 32 16) ∧
    encodeResponse none = [] :=
  c7_break_abort (freshModel 32 16) false [0, 0] [] [9, 9] (Or.inl (by norm_num))

/-- Claim C8.  Interrupt re-synchronization: if a WRITE frame's address field
is cut short (after fewer than four plain address bytes) by ESCAPE followed
by the READ escort, the parser abandons the WRITE — which never reaches the
store — and the overall result is exactly that of parsing a fresh READ frame
on the remaining bytes; in particular, for a complete stuffed address field
the result is the fresh read of that address against the unchanged store. -/
theorem c8_interrupt_resync (m : MemoryModel) (pre rest : List Nat)
    (hpre : ∀ b ∈ pre, b ≠ ESCAPE) (hlen : pre.length < 4) :
    parseBytestream m (ESCAPE :: WRITE :: (pre ++ ESCAPE :: READ :: rest)) =
      parseBytestream m (ESCAPE :: READ :: rest) ∧
    ∀ A : List Nat, A.length = 4 →
      parseBytestream m (ESCAPE :: WRITE :: (pre ++ ESCAPE :: READ :: stuff A)) =
        finishRead m A := by
  have key : ∀ r : List Nat,
      parseWriteBytestream m (pre ++ ESCAPE :: READ :: r) =
        parseReadBytestream m r := by
    intro r
    unfold parseWriteBytestream
    have h1 := parseAux_consume_addr m true pre [] [] (ESCAPE :: READ :: r)
      (by simp; omega)
    rw [stuff_of_no_escape hpre] at h1
    rw [h1]
    simp only [List.nil_append]
    rw [parseAux_addr_escape m true pre [] _ hlen,
      parseAux_escort_read m true pre [] r (Or.inl hlen)]
    rfl
  constructor
  · rw [parseBytestream_write, parseBytestream_read, key rest]
  · intro A hA
    rw [parseBytestream_write, key (stuff A), parseRead_complete_nil m A hA]

/-- Claim C8 (witness). -/
theorem c8_interrupt_resync_witness :
    parseBytestream (freshModel 32 16)
      (ESCAPE :: WRITE :: ([0, 0] ++ ESCAPE :: READ :: [0, 0, 0, 3])) =
      parseBytestream (freshModel 32 16) (ESCAPE :: READ :: [0, 0, 0, 3]) :=
  (c8_interrupt_resync (freshModel 32 16) [0, 0] [0, 0, 0, 3]
    (by decide) (by decide)).1

/-- Claim C9.  Concrete scenario: against the fresh store (address 231
preloaded with 0xDEADBEEF, data_w = 32, addr_w = 16), the command bytestream
`[E7, 13, 00, 00, 00, E7, E7]` — a READ whose final literal-231 address byte
is stuffed — produces the logical response `[DE, AD, BE, EF]`, encoded as
the response bytestream `[E7, 03, DE, AD, BE, EF]`. -/
theorem c9_concrete_scenario :
    parseBytestream (freshModel 32 16) [231, 19, 0, 0, 0, 231, 231] =
      .ok (some [222, 173, 190, 239], freshModel 32 16) ∧
    encodeResponse (some [222, 173, 190, 239]) =
      [231, 3, 222, 173, 190, 239] :=
  ⟨rfl, rfl⟩

/-- Claim C10.  Once the parser has collected a complete four-byte address
field, the address it passes to the store is the collected big-endian value
truncated to the low `addr_w` bits (for `addr_w ≤ 32`), which is always
within range, so neither `finishRead` nor `finishWrite` can produce the
store's address-range assertion error. -/
theorem c10_truncated_address (m : MemoryModel) (A : List Nat)
    (hA : A.length = 4) (hb : ∀ b ∈ A, b < 256)
    (h0 : 0 < m.addr_w) (h32 : m.addr_w ≤ 32) :
    beValue A % 2 ^ m.addr_w < 2 ^ m.addr_w ∧
    parseReadBytestream m (stuff A) = finishRead m A ∧
    finishRead m A ≠ .error .addrOutOfRange ∧
    ∀ D : List Nat, finishWrite m A D ≠ .error .addrOutOfRange := by
  have hmod : beValue A % 2 ^ m.addr_w < 2 ^ m.addr_w :=
    Nat.mod_lt _ (by positivity)
  refine ⟨hmod, parseRead_complete_nil m A hA, ?_, ?_⟩
  · unfold finishRead
    rw [if_pos hb, if_neg (by rw [hA]; omega), read_of_lt m _ hmod]
    by_cases hm : (beValue A % 2 ^ m.addr_w) ∈ validAddrs
    · rw [if_pos hm]
      dsimp only
      by_cases hd : m.data_w < 8 * numBytesOf m.data_w
      · rw [if_pos hd]
        intro hcon
        injection hcon with hce
        exact ModelError.noConfusion hce
      · rw [if_neg hd]
        intro hcon
        exact Except.noConfusion hcon
    · rw [if_neg hm]
      dsimp only
      intro hcon
      exact Except.noConfusion hcon
  · intro D
    unfold finishWrite
    rw [if_pos hb]
    by_cases hbD : ∀ b ∈ D, b < 256
    · rw [if_pos hbD, if_neg (by rw [hA]; omega)]
      by_cases hD0 : D.length = 0
      · rw [if_pos hD0]
        intro hcon
        injection hcon with hce
        exact ModelError.noConfusion hce
      · rw [if_neg hD0]
        have hw := write_ne_addr_error m (beValue A % 2 ^ m.addr_w)
          ((beValue D : Nat) : Int) hmod
        cases hww : m.write ((beValue A % 2 ^ m.addr_w : Nat) : Int)
            ((beValue D : Nat) : Int) with
        | error e =>
          dsimp only
          intro hcon
          injection hcon with hce
          rw [hce] at hww
          exact hw hww
        | ok m2 =>
          dsimp only
          intro hcon
          exact Except.noConfusion hcon
    · rw [if_neg hbD]
      intro hcon
      injection hcon with hce
      exact ModelError.noConfusion hce

/-- Claim C10 (witness). -/
theorem c10_truncated_address_witness :
    beValue [0, 0, 0, 42] % 2 ^ (freshModel 32 16).addr_w <
      2 ^ (freshModel 32 16).addr_w ∧
    parseReadBytestream (freshModel 32 16) (stuff [0, 0, 0, 42]) =
      finishRead (freshModel 32 16) [0, 0, 0, 42] ∧
    finishRead (freshModel 32 16) [0, 0, 0, 42] ≠ .error .addrOutOfRange ∧
    finishWrite (freshModel 32 16) [0, 0, 0, 42] [1, 2, 3, 4] ≠
      .error .addrOutOfRange :=
  have h := c10_truncated_address (freshModel 32 16) [0, 0, 0, 42]
    (by decide) (by decide) (by decide) (by decide)
  ⟨h.1, h.2.1, h.2.2.1, h.2.2.2 [1, 2, 3, 4]⟩

end RegFsm
